import Mathlib

/-!
# Verification of the MIDI synth scheduling core (Alc/midi/base.c)

A shallow embedding of the event queue, synth clock and soundfont
selection logic of `src/Alc/midi/base.c`, together with proofs of the
specification's claims about them.

Modelling conventions:
* `ALuint64` tick times are modelled as `Nat`; the one place the code
  performs `u64` subtraction that may wrap (`NextEvtTime - LastEvtTime`)
  is modelled explicitly modulo `2^64` (`sub64`).
* `ALsizei` quantities are non-negative in every reachable state and are
  modelled as `Nat`, except the doubling `maxsize<<1`, the one spot where
  signed 32-bit overflow matters, which is computed in `Int` and wrapped
  explicitly modulo `2^32` (`wrap32`).
* `ALdouble` quantities are modelled as exact rationals `ℚ`.
* Allocation success (`realloc`/`malloc`/`calloc` returning non-NULL) is
  an explicit boolean parameter; freed sysex payload buffers are counted
  and returned so leak claims can be stated.
* The event buffer holds `size` valid entries and is modelled as the
  list of those entries; `maxsize` (capacity) is kept as a separate
  field exactly as in the C struct.
-/

/-- AL error/state enum values (from the AL headers). -/
def AL_NO_ERROR : Nat := 0
def AL_INVALID_VALUE : Nat := 0xA003
def AL_INVALID_OPERATION : Nat := 0xA004
def AL_OUT_OF_MEMORY : Nat := 0xA005
def AL_INITIAL : Nat := 0x1011
def AL_PLAYING : Nat := 0x1012
def AL_PAUSED : Nat := 0x1013
def AL_STOPPED : Nat := 0x1014

/-- `#define TICKS_PER_SECOND (1000000)` -/
def TICKS_PER_SECOND : Nat := 1000000

/-- `#define SYSEX_EVENT (0xF0)` -/
def SYSEX_EVENT : Nat := 0xF0

/-- `UINT64_MAX`, the "infinite" sentinel for `NextEvtTime`. -/
def UINT64_MAX : Nat := 2 ^ 64 - 1

/-- Unsigned 64-bit subtraction `a - b` (wraps modulo `2^64`). -/
def sub64 (a b : Nat) : Nat := (a + 2 ^ 64 - b % 2 ^ 64) % 2 ^ 64

/-- Signed 32-bit wrap-around: the value an `ALsizei` expression takes
modulo `2^32`, mapped into `[-2^31, 2^31)`. -/
def wrap32 (x : Int) : Int := (x + 2 ^ 31) % 2 ^ 32 - 2 ^ 31

/-- The event payload union: either the two `ALsizei` parameters of a
channel event, or an owned system-exclusive buffer (`{data, size}`,
modelled as the byte list that the buffer holds). -/
inductive MidiParam where
  | vals (p1 p2 : Int)
  | sysex (data : List Int)
deriving DecidableEq, Repr

/-- A `MidiEvent`: `time` (u64 ticks), `event` code, and the payload. -/
structure MidiEvent where
  time : Nat
  event : Nat
  param : MidiParam
deriving DecidableEq, Repr

instance : Inhabited MidiEvent := ⟨⟨0, 0, .vals 0 0⟩⟩

/-- The event queue: `events` models the `size` valid entries of the
backing buffer (`size == events.length`); `maxsize` is the capacity and
`pos` the read cursor, as in the C `EvtQueue` struct. -/
structure EvtQueue where
  events : List MidiEvent
  maxsize : Nat
  pos : Nat
deriving DecidableEq, Repr

/-- `InitEvtQueue`: the empty, zero-capacity queue. -/
def InitEvtQueue : EvtQueue := ⟨[], 0, 0⟩

/-- Number of entries in a buffer segment whose `event` field is
`SYSEX_EVENT`; their payloads are what compaction/reset `free()`s. -/
def countSysex (l : List MidiEvent) : Nat :=
  (l.filter (fun e => e.event = SYSEX_EVENT)).length

/-- `ResetEvtQueue`: frees all sysex payloads in `[0,size)` and the
backing storage.  Returns the reset queue and the number of payload
buffers freed. -/
def ResetEvtQueue (q : EvtQueue) : EvtQueue × Nat :=
  (InitEvtQueue, countSysex q.events)

/-- The bisection loop of `InsertEvtQueue` (lines 96-104): narrows
`[pos, high]` to the first index whose `time ≥ t`, reading only
`events[mid]` for `pos ≤ mid < high`. -/
def bsearch (es : List MidiEvent) (t : Nat) (pos high : Nat) : Nat :=
  if h : pos < high then
    let mid := pos + (high - pos) / 2
    if (es.getD mid default).time < t then bsearch es t (mid + 1) high
    else bsearch es t pos mid
  else pos
termination_by high - pos
decreasing_by
  · omega
  · omega

/-- The linear scan of `InsertEvtQueue` (lines 105-106): advances past
every entry with `time ≤ t`. -/
def lscan (es : List MidiEvent) (t : Nat) (pos size : Nat) : Nat :=
  if h : pos < size ∧ (es.getD pos default).time ≤ t then
    lscan es t (pos + 1) size
  else pos
termination_by size - pos
decreasing_by omega

/-- Lines 93-114 of `InsertEvtQueue`: find the insertion index starting
from the read cursor, shift the suffix up (`memmove`), store the event,
increment `size`. -/
def doInsert (q : EvtQueue) (evt : MidiEvent) : EvtQueue :=
  let pos :=
    if 0 < q.events.length then
      lscan q.events evt.time
        (bsearch q.events evt.time q.pos (q.events.length - 1))
        q.events.length
    else q.pos
  { q with events := q.events.take pos ++ [evt] ++ q.events.drop pos }

/-- `newsize = (queue->maxsize ? (queue->maxsize<<1) : 16)` (line 82):
the doubled capacity, computed in `ALsizei` (signed 32-bit) arithmetic. -/
def growSize (maxsize : Nat) : Int :=
  if maxsize ≠ 0 then wrap32 (2 * (maxsize : Int)) else 16

/-- `InsertEvtQueue` (lines 53-117).  `allocOk` models whether the
`realloc` in the growth path succeeds.  Returns the AL result code, the
resulting queue, and the number of sysex payload buffers freed (by
compaction of the stale prefix). -/
def InsertEvtQueue (q : EvtQueue) (evt : MidiEvent) (allocOk : Bool) :
    Nat × EvtQueue × Nat :=
  if q.maxsize = q.events.length then
    if 0 < q.pos then
      -- stale entries: free their sysex payloads, shift down, pos := 0
      let freed := countSysex (q.events.take q.pos)
      let q' : EvtQueue := ⟨q.events.drop q.pos, q.maxsize, 0⟩
      (AL_NO_ERROR, doInsert q' evt, freed)
    else
      -- queue full: double the allocated space
      if growSize q.maxsize > (q.maxsize : Int) ∧ allocOk then
        (AL_NO_ERROR, doInsert ⟨q.events, (growSize q.maxsize).toNat, q.pos⟩ evt, 0)
      else (AL_OUT_OF_MEMORY, q, 0)
  else (AL_NO_ERROR, doInsert q evt, 0)

/-- The `MidiSynth` struct fields the claims concern.  `NumSoundfonts`
always equals `Soundfonts.length` here (the two are exchanged as
separate fields in the C commit; that step is modelled on its own below
for the concurrency claim). -/
structure MidiSynth where
  EventQueue : EvtQueue
  Soundfonts : List Nat
  Gain : ℚ
  State : Nat
  LastEvtTime : Nat
  NextEvtTime : Nat
  SamplesSinceLast : ℚ
  SamplesToNext : ℚ
  SamplesPerTick : ℚ
deriving DecidableEq, Repr

/-- `MidiSynth_Construct` (lines 120-138), parametrised by the device
frequency. -/
def MidiSynth_Construct (deviceFreq : Nat) : MidiSynth :=
  { EventQueue := InitEvtQueue
    Soundfonts := []
    Gain := 1
    State := AL_INITIAL
    LastEvtTime := 0
    NextEvtTime := UINT64_MAX
    SamplesSinceLast := 0
    SamplesToNext := 0
    SamplesPerTick := (deviceFreq : ℚ) / (TICKS_PER_SECOND : ℚ) }

/-- `MidiSynth_stop` (lines 194-202): reset the queue and the clock.
Also returns the number of sysex payload buffers freed. -/
def MidiSynth_stop (s : MidiSynth) : MidiSynth × Nat :=
  let r := ResetEvtQueue s.EventQueue
  ({ s with EventQueue := r.1, LastEvtTime := 0, NextEvtTime := UINT64_MAX,
            SamplesSinceLast := 0, SamplesToNext := 0 }, r.2)

/-- Modelled from the spec: `clampu64` lives in alu.h, which is not
under src/; the spec says `getCurrentTime()` "returns
`clamp(lastEventTime + samplesSinceLast / samplesPerTick,
lastEventTime, nextEventTime)`", i.e. `val` clamped into `[lo, hi]`. -/
def clampu64 (val lo hi : Nat) : Nat := min hi (max lo val)

/-- Conversion of a C `double` (modelled as `ℚ`) to `ALuint64`:
truncation; every value converted in a reachable state is
non-negative, where truncation and floor agree. -/
def ratToU64 (x : ℚ) : Nat := (Int.floor x).toNat

/-- `MidiSynth_getTime` (lines 206-210). -/
def MidiSynth_getTime (s : MidiSynth) : Nat :=
  clampu64 (ratToU64 ((s.LastEvtTime : ℚ) + s.SamplesSinceLast / s.SamplesPerTick))
    s.LastEvtTime s.NextEvtTime

/-- `MidiSynth_setSampleRate` (lines 214-221). -/
def MidiSynth_setSampleRate (s : MidiSynth) (srate : ℚ) : MidiSynth :=
  let sampletickrate := srate / (TICKS_PER_SECOND : ℚ)
  { s with SamplesSinceLast := s.SamplesSinceLast * sampletickrate / s.SamplesPerTick
           SamplesToNext := s.SamplesToNext * sampletickrate / s.SamplesPerTick
           SamplesPerTick := sampletickrate }

/-- `MidiSynth_insertEvent` (lines 225-247).  `qAllocOk` models the
queue-growth `realloc`. -/
def MidiSynth_insertEvent (s : MidiSynth) (time : Nat) (event : Nat)
    (param1 param2 : Int) (qAllocOk : Bool) : Nat × MidiSynth :=
  let entry : MidiEvent := ⟨time, event, .vals param1 param2⟩
  let r := InsertEvtQueue s.EventQueue entry qAllocOk
  if r.1 ≠ AL_NO_ERROR then (r.1, { s with EventQueue := r.2.1 })
  else if time < s.NextEvtTime then
    (AL_NO_ERROR,
     { s with EventQueue := r.2.1, NextEvtTime := time
              SamplesToNext :=
                (sub64 time s.LastEvtTime : ℚ) * s.SamplesPerTick - s.SamplesSinceLast })
  else (AL_NO_ERROR, { s with EventQueue := r.2.1 })

/-- `MidiSynth_insertSysExEvent` (lines 249-278).  `mallocOk` models the
payload-copy `malloc`, `qAllocOk` the queue-growth `realloc`.  The last
two components count payload buffers (allocated by this call, freed
during this call), so leak claims can be stated. -/
def MidiSynth_insertSysExEvent (s : MidiSynth) (time : Nat) (data : List Int)
    (mallocOk qAllocOk : Bool) : Nat × MidiSynth × Nat × Nat :=
  if ¬ mallocOk then (AL_OUT_OF_MEMORY, s, 0, 0)
  else
    let entry : MidiEvent := ⟨time, SYSEX_EVENT, .sysex data⟩
    let r := InsertEvtQueue s.EventQueue entry qAllocOk
    if r.1 ≠ AL_NO_ERROR then
      -- free(entry.param.sysex.data); return err
      (r.1, { s with EventQueue := r.2.1 }, 1, r.2.2 + 1)
    else if time < s.NextEvtTime then
      (AL_NO_ERROR,
       { s with EventQueue := r.2.1, NextEvtTime := time
                SamplesToNext :=
                  (sub64 time s.LastEvtTime : ℚ) * s.SamplesPerTick - s.SamplesSinceLast },
       1, r.2.2)
    else (AL_NO_ERROR, { s with EventQueue := r.2.1 }, 1, r.2.2)

/-- Modelled from the spec: `IncrementRef` (refcount plumbing outside
src/) adds one reference to soundfont `p` in the refcount table. -/
def IncrementRef (refs : Nat → Nat) (p : Nat) : Nat → Nat :=
  fun q => if q = p then refs q + 1 else refs q

/-- Modelled from the spec: `DecrementRef` removes one reference. -/
def DecrementRef (refs : Nat → Nat) (p : Nat) : Nat → Nat :=
  fun q => if q = p then refs q - 1 else refs q

/-- The resolution loop of `MidiSynth_selectSoundfonts` (lines 166-175):
id `0` resolves to the default soundfont, any other id through the
device registry (`lookup`, injected per the spec); the loop fails at the
first unresolvable id, resolving all ids before any commit. -/
def resolveAll (lookup : Nat → Option Nat) (defSf : Nat) : List Nat → Option (List Nat)
  | [] => some []
  | i :: rest =>
    match (if i = 0 then some defSf else lookup i) with
    | none => none
    | some p => (resolveAll lookup defSf rest).map (fun l => p :: l)

/-- `MidiSynth_selectSoundfonts` (lines 154-187).  `refs` is the
refcount table (soundfont pointer → count), `lookup` the device
registry, `defSf` the process-wide default soundfont, `allocOk` the
`calloc` of the resolved array.  Returns the result code, the new synth
state and the new refcount table. -/
def MidiSynth_selectSoundfonts (s : MidiSynth) (refs : Nat → Nat)
    (lookup : Nat → Option Nat) (defSf : Nat) (ids : List Nat) (allocOk : Bool) :
    Nat × MidiSynth × (Nat → Nat) :=
  if s.State ≠ AL_INITIAL ∧ s.State ≠ AL_STOPPED then
    (AL_INVALID_OPERATION, s, refs)
  else if ¬ allocOk then (AL_OUT_OF_MEMORY, s, refs)
  else
    match resolveAll lookup defSf ids with
    | none => (AL_INVALID_VALUE, s, refs)
    | some sfonts =>
      let refs1 := sfonts.foldl IncrementRef refs
      let old := s.Soundfonts
      let refs2 := old.foldl DecrementRef refs1
      (AL_NO_ERROR, { s with Soundfonts := sfonts }, refs2)

/-- The shared (pointer, count) pair of the active soundfont set as a
concurrent lock-free reader sees it: `ptr` stands for the `Soundfonts`
array pointer, `count` for `NumSoundfonts`. -/
structure SfView where
  ptr : Nat
  count : Nat
deriving DecidableEq, Repr

/-- The commit step of `MidiSynth_selectSoundfonts` (lines 179-180) as
the writer's sequence of atomic actions on the shared pair:
`ExchangePtr` on `Soundfonts`, then `ExchangeInt` on `NumSoundfonts` --
two separate atomic exchanges, not one combined one. -/
def selectCommitSteps (newPtr newCount : Nat) : List (SfView → SfView) :=
  [fun st => { st with ptr := newPtr }, fun st => { st with count := newCount }]

/-- The pair a concurrent reader observes after the writer has executed
a given prefix of its atomic actions. -/
def runSteps (steps : List (SfView → SfView)) (st : SfView) : SfView :=
  steps.foldl (fun s f => f s) st

/-! ## Event queue lemmas -/

/-- The live-range invariant: a buffer segment ascending by `time`. -/
def EvtSorted (l : List MidiEvent) : Prop :=
  l.Sorted (fun a b => a.time ≤ b.time)

theorem getD_drop (l : List MidiEvent) (n m : Nat) :
    (l.drop n).getD m default = l.getD (n + m) default := by
  induction n generalizing l with
  | zero => simp
  | succ n ih =>
    cases l with
    | nil => simp
    | cons a tl => simpa [Nat.succ_add] using ih tl

theorem evtSorted_getD_le (l : List MidiEvent) (hs : EvtSorted l) :
    ∀ i j, i ≤ j → j < l.length →
      (l.getD i default).time ≤ (l.getD j default).time := by
  induction l with
  | nil => intro i j _ hj; simp at hj
  | cons a tl ih =>
    intro i j hij hj
    have hcons := List.pairwise_cons.mp hs
    cases i with
    | zero =>
      cases j with
      | zero => exact le_rfl
      | succ j =>
        have hj' : j < tl.length := by simpa using hj
        have hmem : tl.getD j default ∈ tl := by
          rw [List.getD_eq_getElem tl default hj']
          exact List.getElem_mem hj'
        simpa using hcons.1 _ hmem
    | succ i =>
      cases j with
      | zero => omega
      | succ j =>
        have hj' : j < tl.length := by simpa using hj
        simpa using ih hcons.2 i j (by omega) hj'

theorem evtSorted_from_mono (es : List MidiEvent) (p : Nat)
    (hs : EvtSorted (es.drop p)) {i j : Nat} (hpi : p ≤ i) (hij : i ≤ j)
    (hj : j < es.length) :
    (es.getD i default).time ≤ (es.getD j default).time := by
  have h1 := evtSorted_getD_le (es.drop p) hs (i - p) (j - p) (by omega)
    (by simp [List.length_drop]; omega)
  rw [getD_drop, getD_drop] at h1
  have e1 : p + (i - p) = i := by omega
  have e2 : p + (j - p) = j := by omega
  rwa [e1, e2] at h1

theorem bsearch_ge (es : List MidiEvent) (t : Nat) (pos high : Nat) :
    pos ≤ bsearch es t pos high := by
  induction pos, high using bsearch.induct es t with
  | case1 pos high h mid hlt ih =>
    have hmid : mid = pos + (high - pos) / 2 := rfl
    rw [bsearch.eq_def]
    simp only [dif_pos h, if_pos hlt]
    rw [hmid] at ih
    omega
  | case2 pos high h mid hlt ih =>
    have hmid : mid = pos + (high - pos) / 2 := rfl
    rw [bsearch.eq_def]
    simp only [dif_pos h, if_neg hlt]
    rw [hmid] at ih
    omega
  | case3 pos high h =>
    rw [bsearch.eq_def]
    simp only [dif_neg h]
    omega

theorem bsearch_le_max (es : List MidiEvent) (t : Nat) (pos high : Nat) :
    bsearch es t pos high ≤ max pos high := by
  induction pos, high using bsearch.induct es t with
  | case1 pos high h mid hlt ih =>
    have hmid : mid = pos + (high - pos) / 2 := rfl
    rw [bsearch.eq_def]
    simp only [dif_pos h, if_pos hlt]
    rw [hmid] at ih
    omega
  | case2 pos high h mid hlt ih =>
    have hmid : mid = pos + (high - pos) / 2 := rfl
    rw [bsearch.eq_def]
    simp only [dif_pos h, if_neg hlt]
    rw [hmid] at ih
    omega
  | case3 pos high h =>
    rw [bsearch.eq_def]
    simp only [dif_neg h]
    omega

/-- Every live entry strictly below the bisection result has `time < t`
(the bisection never skips past an entry with `time ≥ t`, given the
live range is sorted). -/
theorem bsearch_prefix_lt (es : List MidiEvent) (t : Nat) (p0 : Nat)
    (hs : EvtSorted (es.drop p0)) :
    ∀ pos high, p0 ≤ pos → high < es.length →
      (∀ i, p0 ≤ i → i < pos → (es.getD i default).time < t) →
      ∀ i, p0 ≤ i → i < bsearch es t pos high →
        (es.getD i default).time < t := by
  intro pos high
  induction pos, high using bsearch.induct es t with
  | case1 pos high h mid hlt ih =>
    intro hpp hhl hpre i hpi hib
    have hmid : mid = pos + (high - pos) / 2 := rfl
    rw [bsearch.eq_def] at hib
    simp only [dif_pos h, if_pos hlt] at hib
    rw [← hmid] at hib
    refine ih (by omega) hhl ?_ i hpi hib
    intro i' hpi' hilt
    rcases Nat.lt_or_ge i' pos with hc | hc
    · exact hpre i' hpi' hc
    · have hmidlen : mid < es.length := by omega
      have := evtSorted_from_mono es p0 hs hpi' (show i' ≤ mid by omega) hmidlen
      omega
  | case2 pos high h mid hlt ih =>
    intro hpp hhl hpre i hpi hib
    have hmid : mid = pos + (high - pos) / 2 := rfl
    rw [bsearch.eq_def] at hib
    simp only [dif_pos h, if_neg hlt] at hib
    rw [← hmid] at hib
    exact ih hpp (by omega) hpre i hpi hib
  | case3 pos high h =>
    intro hpp hhl hpre i hpi hib
    rw [bsearch.eq_def] at hib
    simp only [dif_neg h] at hib
    exact hpre i hpi hib

theorem lscan_ge (es : List MidiEvent) (t : Nat) (pos size : Nat) :
    pos ≤ lscan es t pos size := by
  induction pos, size using lscan.induct es t with
  | case1 pos size h ih =>
    rw [lscan.eq_def]
    simp only [dif_pos h]
    omega
  | case2 pos size h =>
    rw [lscan.eq_def]
    simp only [dif_neg h]
    omega

theorem lscan_le (es : List MidiEvent) (t : Nat) (pos size : Nat)
    (hp : pos ≤ size) : lscan es t pos size ≤ size := by
  induction pos, size using lscan.induct es t with
  | case1 pos size h ih =>
    rw [lscan.eq_def]
    simp only [dif_pos h]
    exact ih (by omega)
  | case2 pos size h =>
    rw [lscan.eq_def]
    simp only [dif_neg h]
    exact hp

/-- Every entry the linear scan has passed has `time ≤ t`. -/
theorem lscan_prefix_le (es : List MidiEvent) (t : Nat) (p0 : Nat) :
    ∀ pos size, p0 ≤ pos →
      (∀ i, p0 ≤ i → i < pos → (es.getD i default).time ≤ t) →
      ∀ i, p0 ≤ i → i < lscan es t pos size →
        (es.getD i default).time ≤ t := by
  intro pos size
  induction pos, size using lscan.induct es t with
  | case1 pos size h ih =>
    intro hpp hpre i hpi hil
    rw [lscan.eq_def] at hil
    simp only [dif_pos h] at hil
    refine ih (by omega) ?_ i hpi hil
    intro i' hpi' hilt
    rcases Nat.lt_or_ge i' pos with hc | hc
    · exact hpre i' hpi' hc
    · have : i' = pos := by omega
      subst this
      exact h.2
  | case2 pos size h =>
    intro hpp hpre i hpi hil
    rw [lscan.eq_def] at hil
    simp only [dif_neg h] at hil
    exact hpre i hpi hil

/-- When the linear scan stops inside the buffer, the entry it stops at
has `time > t`. -/
theorem lscan_post (es : List MidiEvent) (t : Nat) (pos size : Nat)
    (h : lscan es t pos size < size) :
    t < (es.getD (lscan es t pos size) default).time := by
  induction pos, size using lscan.induct es t with
  | case1 pos size hc ih =>
    rw [lscan.eq_def] at h ⊢
    simp only [dif_pos hc] at h ⊢
    exact ih h
  | case2 pos size hc =>
    rw [lscan.eq_def] at h ⊢
    simp only [dif_neg hc] at h ⊢
    rcases Decidable.not_and_iff_or_not.mp hc with hc1 | hc2
    · omega
    · omega

/-- An index `j` with everything before it satisfying `time ≤ t` and the
entry at it (if any) violating it splits a list exactly as
`takeWhile`/`dropWhile` do. -/
theorem take_drop_eq_takeWhile_dropWhile (t : Nat) :
    ∀ (l : List MidiEvent) (j : Nat), j ≤ l.length →
      (∀ i, i < j → (l.getD i default).time ≤ t) →
      (j < l.length → t < (l.getD j default).time) →
      l.take j = l.takeWhile (fun e => e.time ≤ t) ∧
      l.drop j = l.dropWhile (fun e => e.time ≤ t) := by
  intro l
  induction l with
  | nil => intro j hj _ _; simp at hj; simp [hj]
  | cons a tl ih =>
    intro j hj hpre hpost
    cases j with
    | zero =>
      have ha : t < a.time := by simpa using hpost (by simp)
      have hna : ¬ a.time ≤ t := by omega
      simp [List.takeWhile_cons, List.dropWhile_cons, hna]
    | succ j =>
      have ha : a.time ≤ t := by simpa using hpre 0 (by omega)
      have hrec := ih j (by simpa using hj)
        (fun i hi => by simpa using hpre (i + 1) (by omega))
        (fun hlt => by simpa using hpost (by simpa using hlt))
      simp [List.takeWhile_cons, List.dropWhile_cons, ha, hrec.1, hrec.2]

/-- Everything `dropWhile (time ≤ t)` keeps of a sorted list has
`time > t`. -/
theorem dropWhile_gt_of_sorted (t : Nat) :
    ∀ (l : List MidiEvent), EvtSorted l →
      ∀ x ∈ l.dropWhile (fun e => e.time ≤ t), t < x.time := by
  intro l
  induction l with
  | nil => intro _ x hx; simp at hx
  | cons a tl ih =>
    intro hs x hx
    have hcons := List.pairwise_cons.mp hs
    by_cases ha : a.time ≤ t
    · rw [List.dropWhile_cons] at hx
      simp only [ha, decide_eq_true_eq, if_pos] at hx
      exact ih hcons.2 x hx
    · rw [List.dropWhile_cons] at hx
      simp [ha] at hx
      rcases hx with rfl | hx'
      · omega
      · have := hcons.1 x hx'
        omega

/-- Inserting an event with `time = t` between the `takeWhile (≤ t)`
prefix and the `dropWhile (≤ t)` suffix of a sorted list keeps it
sorted. -/
theorem insert_live_sorted (evt : MidiEvent) (l : List MidiEvent)
    (hs : EvtSorted l) :
    EvtSorted (l.takeWhile (fun e => e.time ≤ evt.time) ++ evt ::
      l.dropWhile (fun e => e.time ≤ evt.time)) := by
  unfold EvtSorted List.Sorted at hs ⊢
  rw [List.pairwise_append]
  refine ⟨hs.sublist (List.takeWhile_sublist _), ?_, ?_⟩
  · rw [List.pairwise_cons]
    refine ⟨?_, hs.sublist (List.dropWhile_sublist _)⟩
    intro x hx
    have := dropWhile_gt_of_sorted evt.time l hs x hx
    omega
  · intro x hx y hy
    have hxt : x.time ≤ evt.time := by
      have := List.mem_takeWhile_imp hx
      simpa using this
    rcases List.mem_cons.mp hy with rfl | hy'
    · exact hxt
    · have := dropWhile_gt_of_sorted evt.time l hs y hy'
      omega

/-- Characterisation of lines 93-114: `doInsert` keeps `pos` and
`maxsize`, grows `size` by one, and places the event after every live
entry with an equal or smaller timestamp and before every live entry
with a larger one. -/
theorem doInsert_live (q : EvtQueue) (evt : MidiEvent)
    (hp : q.pos ≤ q.events.length)
    (hs : EvtSorted (q.events.drop q.pos)) :
    (doInsert q evt).pos = q.pos ∧
    (doInsert q evt).maxsize = q.maxsize ∧
    (doInsert q evt).events.length = q.events.length + 1 ∧
    (doInsert q evt).events.drop q.pos =
      (q.events.drop q.pos).takeWhile (fun e => e.time ≤ evt.time) ++ evt ::
      (q.events.drop q.pos).dropWhile (fun e => e.time ≤ evt.time) := by
  by_cases hlen : 0 < q.events.length
  · set es := q.events with hes
    set p := q.pos with hp0
    set t := evt.time with ht
    have hhigh : es.length - 1 < es.length := by omega
    set b := bsearch es t p (es.length - 1) with hb
    have hb1 : p ≤ b := bsearch_ge es t p (es.length - 1)
    have hb2 : b ≤ es.length := by
      have := bsearch_le_max es t p (es.length - 1)
      omega
    have hbpre : ∀ i, p ≤ i → i < b → (es.getD i default).time < t := by
      refine bsearch_prefix_lt es t p hs p (es.length - 1) le_rfl hhigh ?_
      intro i h1 h2; omega
    set k := lscan es t b es.length with hk
    have hk1 : b ≤ k := lscan_ge es t b es.length
    have hk2 : k ≤ es.length := lscan_le es t b es.length hb2
    have hkpre : ∀ i, p ≤ i → i < k → (es.getD i default).time ≤ t := by
      refine lscan_prefix_le es t p b es.length hb1 ?_
      intro i h1 h2
      exact le_of_lt (hbpre i h1 h2)
    have hkpost : k < es.length → t < (es.getD k default).time :=
      fun h => lscan_post es t b es.length h
    have hins : (doInsert q evt).events = es.take k ++ [evt] ++ es.drop k := by
      unfold doInsert
      simp only [if_pos hlen, ← hes, ← hp0, ← ht, ← hb, ← hk]
    have hsplit := take_drop_eq_takeWhile_dropWhile t (es.drop p) (k - p)
      (by simp [List.length_drop]; omega)
      (by
        intro i hi
        rw [getD_drop]
        exact hkpre (p + i) (by omega) (by omega))
      (by
        intro hlt
        rw [getD_drop]
        have : k < es.length := by simp [List.length_drop] at hlt; omega
        have e1 : p + (k - p) = k := by omega
        rw [e1]
        exact hkpost this)
    refine ⟨rfl, rfl, ?_, ?_⟩
    · rw [hins]
      simp [List.length_take, List.length_drop]
      omega
    · show (doInsert q evt).events.drop p = _
      rw [hins]
      rw [List.append_assoc, List.drop_append_eq_append_drop]
      have hltake : (es.take k).length = k := by
        simp [List.length_take]; omega
      rw [hltake, List.drop_take]
      have hzero : p - k = 0 := by omega
      rw [hzero, List.drop_zero]
      have e3 : List.drop k es = List.drop (k - p) (List.drop p es) := by
        rw [List.drop_drop]
        congr 1
        omega
      rw [e3, hsplit.1, hsplit.2]
      simp
  · have hnil : q.events = [] := by
      cases h : q.events with
      | nil => rfl
      | cons a l => rw [h] at hlen; simp at hlen
    have hp0 : q.pos = 0 := by
      rw [hnil] at hp; simpa using hp
    unfold doInsert
    rw [if_neg hlen]
    simp [hnil, hp0]

theorem insertEvtQueue_compact (q : EvtQueue) (evt : MidiEvent) (allocOk : Bool)
    (hfull : q.maxsize = q.events.length) (hpos : 0 < q.pos) :
    InsertEvtQueue q evt allocOk =
      (AL_NO_ERROR, doInsert ⟨q.events.drop q.pos, q.maxsize, 0⟩ evt,
       countSysex (q.events.take q.pos)) := by
  unfold InsertEvtQueue
  rw [if_pos hfull, if_pos hpos]

theorem insertEvtQueue_grow (q : EvtQueue) (evt : MidiEvent) (allocOk : Bool)
    (hfull : q.maxsize = q.events.length) (hpos : ¬ 0 < q.pos)
    (hgrow : growSize q.maxsize > (q.maxsize : Int)) (hallo : allocOk = true) :
    InsertEvtQueue q evt allocOk =
      (AL_NO_ERROR,
       doInsert ⟨q.events, (growSize q.maxsize).toNat, q.pos⟩ evt, 0) := by
  unfold InsertEvtQueue
  rw [if_pos hfull, if_neg hpos, if_pos ⟨hgrow, hallo⟩]

theorem insertEvtQueue_grow_fail (q : EvtQueue) (evt : MidiEvent) (allocOk : Bool)
    (hfull : q.maxsize = q.events.length) (hpos : ¬ 0 < q.pos)
    (hfailcond : ¬ (growSize q.maxsize > (q.maxsize : Int) ∧ allocOk = true)) :
    InsertEvtQueue q evt allocOk = (AL_OUT_OF_MEMORY, q, 0) := by
  unfold InsertEvtQueue
  rw [if_pos hfull, if_neg hpos, if_neg hfailcond]

theorem insertEvtQueue_notfull (q : EvtQueue) (evt : MidiEvent) (allocOk : Bool)
    (hfull : ¬ q.maxsize = q.events.length) :
    InsertEvtQueue q evt allocOk = (AL_NO_ERROR, doInsert q evt, 0) := by
  unfold InsertEvtQueue
  rw [if_neg hfull]

/-- C1: after every successful `InsertEvtQueue` call on a queue whose
live range `events[pos..size)` is sorted ascending by time, the live
range is again sorted, and the new event sits after every live event
with `time ≤ evt.time` (in particular after all equal timestamps, so
relative insertion order among equal timestamps is preserved) and
before every live event with a strictly larger time. -/
theorem c1_insert_sorted_stable (q : EvtQueue) (evt : MidiEvent) (allocOk : Bool)
    (hp : q.pos ≤ q.events.length)
    (hs : EvtSorted (q.events.drop q.pos))
    (hok : (InsertEvtQueue q evt allocOk).1 = AL_NO_ERROR) :
    (InsertEvtQueue q evt allocOk).2.1.events.drop (InsertEvtQueue q evt allocOk).2.1.pos =
      (q.events.drop q.pos).takeWhile (fun e => e.time ≤ evt.time) ++ evt ::
      (q.events.drop q.pos).dropWhile (fun e => e.time ≤ evt.time) ∧
    EvtSorted ((InsertEvtQueue q evt allocOk).2.1.events.drop
      (InsertEvtQueue q evt allocOk).2.1.pos) ∧
    (InsertEvtQueue q evt allocOk).2.1.pos ≤
      (InsertEvtQueue q evt allocOk).2.1.events.length := by
  by_cases hfull : q.maxsize = q.events.length
  · by_cases hpos : 0 < q.pos
    · rw [insertEvtQueue_compact q evt allocOk hfull hpos]
      set q2 : EvtQueue := ⟨q.events.drop q.pos, q.maxsize, 0⟩ with hq2
      have h0 : q2.pos ≤ q2.events.length := by simp [hq2]
      have hs2 : EvtSorted (q2.events.drop q2.pos) := by simpa [hq2] using hs
      have hd := doInsert_live q2 evt h0 hs2
      have hlive : (doInsert q2 evt).events.drop (doInsert q2 evt).pos =
          (q.events.drop q.pos).takeWhile (fun e => e.time ≤ evt.time) ++ evt ::
          (q.events.drop q.pos).dropWhile (fun e => e.time ≤ evt.time) := by
        rw [hd.1]
        simpa [hq2] using hd.2.2.2
      refine ⟨hlive, ?_, ?_⟩
      · rw [hlive]
        exact insert_live_sorted evt _ hs
      · rw [hd.1, hd.2.2.1]
        simp [hq2]
    · by_cases hgrow : growSize q.maxsize > (q.maxsize : Int) ∧ allocOk = true
      · rw [insertEvtQueue_grow q evt allocOk hfull hpos hgrow.1 hgrow.2]
        set q3 : EvtQueue := ⟨q.events, (growSize q.maxsize).toNat, q.pos⟩ with hq3
        have h0 : q3.pos ≤ q3.events.length := hp
        have hs3 : EvtSorted (q3.events.drop q3.pos) := hs
        have hd := doInsert_live q3 evt h0 hs3
        have hlive : (doInsert q3 evt).events.drop (doInsert q3 evt).pos =
            (q.events.drop q.pos).takeWhile (fun e => e.time ≤ evt.time) ++ evt ::
            (q.events.drop q.pos).dropWhile (fun e => e.time ≤ evt.time) := by
          rw [hd.1]
          exact hd.2.2.2
        refine ⟨hlive, ?_, ?_⟩
        · rw [hlive]
          exact insert_live_sorted evt _ hs
        · rw [hd.1, hd.2.2.1]
          omega
      · rw [insertEvtQueue_grow_fail q evt allocOk hfull hpos hgrow] at hok
        simp [AL_OUT_OF_MEMORY, AL_NO_ERROR] at hok
  · rw [insertEvtQueue_notfull q evt allocOk hfull]
    have hd := doInsert_live q evt hp hs
    have hlive : (doInsert q evt).events.drop (doInsert q evt).pos =
        (q.events.drop q.pos).takeWhile (fun e => e.time ≤ evt.time) ++ evt ::
        (q.events.drop q.pos).dropWhile (fun e => e.time ≤ evt.time) := by
      rw [hd.1]
      exact hd.2.2.2
    refine ⟨hlive, ?_, ?_⟩
    · rw [hlive]
      exact insert_live_sorted evt _ hs
    · rw [hd.1, hd.2.2.1]
      omega

/-- Shape of `doInsert` without any sortedness assumption: `pos` and
`maxsize` are kept and the event goes in at some index `k ≤ size`. -/
theorem doInsert_shape (q : EvtQueue) (evt : MidiEvent)
    (hp : q.pos ≤ q.events.length) :
    (doInsert q evt).pos = q.pos ∧ (doInsert q evt).maxsize = q.maxsize ∧
    ∃ k, k ≤ q.events.length ∧
      (doInsert q evt).events = q.events.take k ++ evt :: q.events.drop k := by
  by_cases hlen : 0 < q.events.length
  · refine ⟨rfl, rfl,
      lscan q.events evt.time
        (bsearch q.events evt.time q.pos (q.events.length - 1)) q.events.length,
      ?_, ?_⟩
    · apply lscan_le
      have h1 := bsearch_le_max q.events evt.time q.pos (q.events.length - 1)
      omega
    · simp [doInsert, hlen]
  · refine ⟨rfl, rfl, q.pos, hp, ?_⟩
    simp [doInsert, hlen]

/-- C2: inserting into a full queue (`size == maxsize`) with `pos > 0`
reclaims the stale prefix instead of growing: the sysex payloads of
`[0, pos)` are freed, `[pos, size)` is shifted down, `pos` becomes `0`,
the capacity is unchanged, and the new size is `size - pos + 1`. -/
theorem c2_full_queue_compaction (q : EvtQueue) (evt : MidiEvent) (allocOk : Bool)
    (hfull : q.maxsize = q.events.length) (hpos : 0 < q.pos)
    (hp : q.pos ≤ q.events.length) :
    (InsertEvtQueue q evt allocOk).1 = AL_NO_ERROR ∧
    (InsertEvtQueue q evt allocOk).2.2 = countSysex (q.events.take q.pos) ∧
    (InsertEvtQueue q evt allocOk).2.1.maxsize = q.maxsize ∧
    (InsertEvtQueue q evt allocOk).2.1.pos = 0 ∧
    (InsertEvtQueue q evt allocOk).2.1.events.length = q.events.length - q.pos + 1 ∧
    ∃ k, k ≤ (q.events.drop q.pos).length ∧
      (InsertEvtQueue q evt allocOk).2.1.events =
        (q.events.drop q.pos).take k ++ evt :: (q.events.drop q.pos).drop k := by
  rw [insertEvtQueue_compact q evt allocOk hfull hpos]
  set q2 : EvtQueue := ⟨q.events.drop q.pos, q.maxsize, 0⟩ with hq2
  have hp2 : q2.pos ≤ q2.events.length := by simp [hq2]
  have hsh := doInsert_shape q2 evt hp2
  obtain ⟨k, hk, hev⟩ := hsh.2.2
  refine ⟨rfl, rfl, hsh.2.1, hsh.1, ?_, ⟨k, ?_, ?_⟩⟩
  · show (doInsert q2 evt).events.length = q.events.length - q.pos + 1
    rw [hev]
    simp [hq2, List.length_take, List.length_drop]
    omega
  · simpa [hq2, List.length_drop] using hk
  · exact hev

/-- C10: when the queue must grow (`size == maxsize`, `pos == 0`) but
the doubled capacity wraps around in signed 32-bit arithmetic and is
not strictly greater than the old capacity, no reallocation happens and
the call fails with `AL_OUT_OF_MEMORY`, the queue unchanged --
regardless of whether an allocation would have succeeded. -/
theorem c10_overflow_no_grow (q : EvtQueue) (evt : MidiEvent) (allocOk : Bool)
    (hfull : q.maxsize = q.events.length) (hp0 : q.pos = 0)
    (hov : growSize q.maxsize ≤ (q.maxsize : Int)) :
    InsertEvtQueue q evt allocOk = (AL_OUT_OF_MEMORY, q, 0) := by
  refine insertEvtQueue_grow_fail q evt allocOk hfull (by omega) ?_
  intro hc
  have := hc.1
  omega

/-- C10 witness: a queue of capacity `2^30` (at the claimed `ALsizei`
overflow boundary: doubling gives `-2^31`), full with `pos == 0`. -/
theorem c10_witness :
    InsertEvtQueue ⟨List.replicate (2 ^ 30) default, 2 ^ 30, 0⟩ default true =
      (AL_OUT_OF_MEMORY, ⟨List.replicate (2 ^ 30) default, 2 ^ 30, 0⟩, 0) :=
  c10_overflow_no_grow ⟨List.replicate (2 ^ 30) default, 2 ^ 30, 0⟩ default true
    (by rw [List.length_replicate]) rfl (by decide)

/-- C9: `MidiSynth_Construct` initialises the gain to exactly 1, the
state to `AL_INITIAL`, `LastEvtTime` to 0, `NextEvtTime` to the
`UINT64_MAX` sentinel, the sample counters to 0, and `SamplesPerTick`
to the device frequency divided by 1,000,000. -/
theorem c9_construct_defaults (deviceFreq : Nat) :
    (MidiSynth_Construct deviceFreq).Gain = 1 ∧
    (MidiSynth_Construct deviceFreq).State = AL_INITIAL ∧
    (MidiSynth_Construct deviceFreq).LastEvtTime = 0 ∧
    (MidiSynth_Construct deviceFreq).NextEvtTime = UINT64_MAX ∧
    (MidiSynth_Construct deviceFreq).SamplesSinceLast = 0 ∧
    (MidiSynth_Construct deviceFreq).SamplesToNext = 0 ∧
    (MidiSynth_Construct deviceFreq).SamplesPerTick = (deviceFreq : ℚ) / 1000000 :=
  ⟨rfl, rfl, rfl, rfl, rfl, rfl, rfl⟩

/-- A simple channel event used by the concrete examples; `tag`
distinguishes events with equal timestamps. -/
def sampleEvt (t tag : Nat) : MidiEvent := ⟨t, 0, .vals (tag : Int) 0⟩

/-- Concrete queue for the C1 witness: live range `[50, 50, 100]`. -/
def c1Q : EvtQueue := ⟨[sampleEvt 50 1, sampleEvt 50 2, sampleEvt 100 3], 16, 0⟩

/-- C1 witness: inserting a third event with time 50 places it after
both existing time-50 events and before the time-100 one. -/
theorem c1_witness :
    (InsertEvtQueue c1Q (sampleEvt 50 9) true).2.1.events.drop
        (InsertEvtQueue c1Q (sampleEvt 50 9) true).2.1.pos =
      (c1Q.events.drop c1Q.pos).takeWhile
          (fun e => e.time ≤ (sampleEvt 50 9).time) ++ sampleEvt 50 9 ::
        (c1Q.events.drop c1Q.pos).dropWhile
          (fun e => e.time ≤ (sampleEvt 50 9).time) ∧
    EvtSorted ((InsertEvtQueue c1Q (sampleEvt 50 9) true).2.1.events.drop
      (InsertEvtQueue c1Q (sampleEvt 50 9) true).2.1.pos) ∧
    (InsertEvtQueue c1Q (sampleEvt 50 9) true).2.1.pos ≤
      (InsertEvtQueue c1Q (sampleEvt 50 9) true).2.1.events.length :=
  c1_insert_sorted_stable c1Q (sampleEvt 50 9) true (by decide)
    (by unfold EvtSorted List.Sorted; decide) (by decide)

/-- Concrete queue for the C2 witness: capacity 16, 16 events, cursor
advanced past the first 8. -/
def c2Q : EvtQueue :=
  ⟨[sampleEvt 0 0, sampleEvt 1 0, sampleEvt 2 0, sampleEvt 3 0,
    sampleEvt 4 0, sampleEvt 5 0, sampleEvt 6 0, sampleEvt 7 0,
    sampleEvt 8 0, sampleEvt 9 0, sampleEvt 10 0, sampleEvt 11 0,
    sampleEvt 12 0, sampleEvt 13 0, sampleEvt 14 0, sampleEvt 15 0], 16, 8⟩

/-- C2 witness: the spec's concrete scenario -- capacity 16, 16 events
inserted, cursor advanced past 8, one further insert: the stale 8 are
reclaimed rather than growing, leaving `size == 9`, `pos == 0`,
capacity still 16. -/
theorem c2_witness :
    (InsertEvtQueue c2Q (sampleEvt 20 0) true).1 = AL_NO_ERROR ∧
    (InsertEvtQueue c2Q (sampleEvt 20 0) true).2.1.events.length = 9 ∧
    (InsertEvtQueue c2Q (sampleEvt 20 0) true).2.1.pos = 0 ∧
    (InsertEvtQueue c2Q (sampleEvt 20 0) true).2.1.maxsize = 16 := by
  have h := c2_full_queue_compaction c2Q (sampleEvt 20 0) true
    (by decide) (by decide) (by decide)
  refine ⟨h.1, ?_, h.2.2.2.1, ?_⟩
  · rw [h.2.2.2.2.1]
    decide
  · rw [h.2.2.1]
    rfl

/-- C6: every failing insertion path leaves the program state exactly
as it was.  (1) Queue-growth allocation failure: `InsertEvtQueue`
returns `AL_OUT_OF_MEMORY` with the queue unchanged.  (2) SysEx
payload-copy allocation failure: no queue or clock mutation, nothing
allocated.  (3) SysEx insertion whose queue insert fails: the error is
returned, the synth (queue and clock) is unchanged, and the payload
copy that was made (1 allocated) has been released (1 freed). -/
theorem c6_failure_paths :
    (∀ (q : EvtQueue) (evt : MidiEvent),
      q.maxsize = q.events.length → q.pos = 0 →
      InsertEvtQueue q evt false = (AL_OUT_OF_MEMORY, q, 0)) ∧
    (∀ (s : MidiSynth) (time : Nat) (data : List Int) (qAllocOk : Bool),
      MidiSynth_insertSysExEvent s time data false qAllocOk =
        (AL_OUT_OF_MEMORY, s, 0, 0)) ∧
    (∀ (s : MidiSynth) (time : Nat) (data : List Int),
      s.EventQueue.maxsize = s.EventQueue.events.length →
      s.EventQueue.pos = 0 →
      MidiSynth_insertSysExEvent s time data true false =
        (AL_OUT_OF_MEMORY, s, 1, 1)) := by
  have hfail : ∀ (q : EvtQueue) (evt : MidiEvent),
      q.maxsize = q.events.length → q.pos = 0 →
      InsertEvtQueue q evt false = (AL_OUT_OF_MEMORY, q, 0) := by
    intro q evt hfull hp0
    refine insertEvtQueue_grow_fail q evt false hfull (by omega) ?_
    intro hc
    exact absurd hc.2 (by simp)
  refine ⟨hfail, ?_, ?_⟩
  · intro s time data qAllocOk
    simp [MidiSynth_insertSysExEvent]
  · intro s time data hfull hp0
    have h1 := hfail s.EventQueue ⟨time, SYSEX_EVENT, .sysex data⟩ hfull hp0
    simp [MidiSynth_insertSysExEvent, h1, AL_OUT_OF_MEMORY, AL_NO_ERROR]

/-- Concrete full queue (capacity 1, one event, `pos = 0`) attached to
a freshly constructed synth, for the C6 witness. -/
def c6S : MidiSynth :=
  { MidiSynth_Construct 48000 with EventQueue := ⟨[sampleEvt 5 0], 1, 0⟩ }

/-- C6 witness: with allocation failing on a full queue, both the raw
queue insert and a sysex insert fail with `AL_OUT_OF_MEMORY`, leave the
state unchanged, and the sysex path frees the one payload it
allocated. -/
theorem c6_witness :
    InsertEvtQueue ⟨[sampleEvt 5 0], 1, 0⟩ (sampleEvt 7 0) false =
      (AL_OUT_OF_MEMORY, ⟨[sampleEvt 5 0], 1, 0⟩, 0) ∧
    MidiSynth_insertSysExEvent c6S 9 [1, 2] false true =
      (AL_OUT_OF_MEMORY, c6S, 0, 0) ∧
    MidiSynth_insertSysExEvent c6S 9 [1, 2] true false =
      (AL_OUT_OF_MEMORY, c6S, 1, 1) :=
  ⟨c6_failure_paths.1 ⟨[sampleEvt 5 0], 1, 0⟩ (sampleEvt 7 0) (by decide) rfl,
   c6_failure_paths.2.1 c6S 9 [1, 2] true,
   c6_failure_paths.2.2 c6S 9 [1, 2] (by decide) (by decide)⟩

/-- C3: the compare-on-insert clock rule.  A successful insertion with
`time < NextEvtTime` sets `NextEvtTime := time` and recomputes
`SamplesToNext = (NextEvtTime - LastEvtTime) * SamplesPerTick -
SamplesSinceLast` (the u64 subtraction taken modulo `2^64` as in the
code); every other clock field is untouched.  A successful insertion
with `time ≥ NextEvtTime` changes no clock field.  Both for
`MidiSynth_insertEvent` and `MidiSynth_insertSysExEvent`. -/
theorem c3_clock_compare_on_insert :
    (∀ (s : MidiSynth) (time event : Nat) (p1 p2 : Int) (ok : Bool),
      (MidiSynth_insertEvent s time event p1 p2 ok).1 = AL_NO_ERROR →
      (time < s.NextEvtTime →
        (MidiSynth_insertEvent s time event p1 p2 ok).2.NextEvtTime = time ∧
        (MidiSynth_insertEvent s time event p1 p2 ok).2.SamplesToNext =
          (sub64 time s.LastEvtTime : ℚ) * s.SamplesPerTick - s.SamplesSinceLast) ∧
      (¬ time < s.NextEvtTime →
        (MidiSynth_insertEvent s time event p1 p2 ok).2.NextEvtTime = s.NextEvtTime ∧
        (MidiSynth_insertEvent s time event p1 p2 ok).2.SamplesToNext = s.SamplesToNext) ∧
      (MidiSynth_insertEvent s time event p1 p2 ok).2.LastEvtTime = s.LastEvtTime ∧
      (MidiSynth_insertEvent s time event p1 p2 ok).2.SamplesSinceLast = s.SamplesSinceLast ∧
      (MidiSynth_insertEvent s time event p1 p2 ok).2.SamplesPerTick = s.SamplesPerTick) ∧
    (∀ (s : MidiSynth) (time : Nat) (data : List Int) (mOk qOk : Bool),
      (MidiSynth_insertSysExEvent s time data mOk qOk).1 = AL_NO_ERROR →
      (time < s.NextEvtTime →
        (MidiSynth_insertSysExEvent s time data mOk qOk).2.1.NextEvtTime = time ∧
        (MidiSynth_insertSysExEvent s time data mOk qOk).2.1.SamplesToNext =
          (sub64 time s.LastEvtTime : ℚ) * s.SamplesPerTick - s.SamplesSinceLast) ∧
      (¬ time < s.NextEvtTime →
        (MidiSynth_insertSysExEvent s time data mOk qOk).2.1.NextEvtTime = s.NextEvtTime ∧
        (MidiSynth_insertSysExEvent s time data mOk qOk).2.1.SamplesToNext = s.SamplesToNext) ∧
      (MidiSynth_insertSysExEvent s time data mOk qOk).2.1.LastEvtTime = s.LastEvtTime ∧
      (MidiSynth_insertSysExEvent s time data mOk qOk).2.1.SamplesSinceLast = s.SamplesSinceLast ∧
      (MidiSynth_insertSysExEvent s time data mOk qOk).2.1.SamplesPerTick = s.SamplesPerTick) := by
  constructor
  · intro s time event p1 p2 ok hok
    by_cases herr :
        (InsertEvtQueue s.EventQueue ⟨time, event, .vals p1 p2⟩ ok).1 ≠ AL_NO_ERROR
    · exfalso
      apply herr
      simpa [MidiSynth_insertEvent, herr] using hok
    · by_cases hlt : time < s.NextEvtTime
      · refine ⟨fun _ => ⟨?_, ?_⟩, fun hc => absurd hlt hc, ?_, ?_, ?_⟩ <;>
          simp [MidiSynth_insertEvent, herr, hlt]
      · refine ⟨fun hc => absurd hc hlt, fun _ => ⟨?_, ?_⟩, ?_, ?_, ?_⟩ <;>
          simp [MidiSynth_insertEvent, herr, hlt]
  · intro s time data mOk qOk hok
    by_cases hm : mOk
    · by_cases herr :
          (InsertEvtQueue s.EventQueue ⟨time, SYSEX_EVENT, .sysex data⟩ qOk).1 ≠ AL_NO_ERROR
      · exfalso
        apply herr
        simpa [MidiSynth_insertSysExEvent, hm, herr] using hok
      · by_cases hlt : time < s.NextEvtTime
        · refine ⟨fun _ => ⟨?_, ?_⟩, fun hc => absurd hlt hc, ?_, ?_, ?_⟩ <;>
            simp [MidiSynth_insertSysExEvent, hm, herr, hlt]
        · refine ⟨fun hc => absurd hc hlt, fun _ => ⟨?_, ?_⟩, ?_, ?_, ?_⟩ <;>
            simp [MidiSynth_insertSysExEvent, hm, herr, hlt]
    · exfalso
      have : (MidiSynth_insertSysExEvent s time data mOk qOk).1 = AL_OUT_OF_MEMORY := by
        simp [MidiSynth_insertSysExEvent, hm]
      rw [this] at hok
      simp [AL_OUT_OF_MEMORY, AL_NO_ERROR] at hok

/-- C3 witness: inserting the first event (time 100) into a fresh synth
(whose `NextEvtTime` is the `UINT64_MAX` sentinel) sets `NextEvtTime`
to 100 and leaves `LastEvtTime` at 0. -/
theorem c3_witness :
    (MidiSynth_insertEvent (MidiSynth_Construct 48000) 100 0 0 0 true).2.NextEvtTime = 100 ∧
    (MidiSynth_insertEvent (MidiSynth_Construct 48000) 100 0 0 0 true).2.LastEvtTime = 0 := by
  have h := c3_clock_compare_on_insert.1 (MidiSynth_Construct 48000) 100 0 0 0 true
    (by decide)
  exact ⟨(h.1 (by decide)).1, h.2.2.1⟩

/-- C4: `MidiSynth_getTime` returns the clamped tick estimate
`clamp(LastEvtTime + SamplesSinceLast/SamplesPerTick, LastEvtTime,
NextEvtTime)` (the sum converted to `ALuint64`), and whenever
`LastEvtTime ≤ NextEvtTime` -- true in every reachable state, since
`LastEvtTime` only ever becomes 0 -- the result lies in
`[LastEvtTime, NextEvtTime]`. -/
theorem c4_getTime_clamped (s : MidiSynth)
    (h : s.LastEvtTime ≤ s.NextEvtTime) :
    MidiSynth_getTime s =
      clampu64 (ratToU64 ((s.LastEvtTime : ℚ) +
        s.SamplesSinceLast / s.SamplesPerTick)) s.LastEvtTime s.NextEvtTime ∧
    s.LastEvtTime ≤ MidiSynth_getTime s ∧
    MidiSynth_getTime s ≤ s.NextEvtTime := by
  refine ⟨rfl, ?_, ?_⟩
  · unfold MidiSynth_getTime clampu64
    have h1 : s.LastEvtTime ≤ max s.LastEvtTime
        (ratToU64 ((s.LastEvtTime : ℚ) + s.SamplesSinceLast / s.SamplesPerTick)) :=
      le_max_left _ _
    omega
  · unfold MidiSynth_getTime clampu64
    omega

/-- C4 witness: a freshly constructed synth. -/
theorem c4_witness :
    (MidiSynth_Construct 48000).LastEvtTime ≤
      MidiSynth_getTime (MidiSynth_Construct 48000) ∧
    MidiSynth_getTime (MidiSynth_Construct 48000) ≤
      (MidiSynth_Construct 48000).NextEvtTime :=
  ⟨(c4_getTime_clamped (MidiSynth_Construct 48000) (by decide)).2.1,
   (c4_getTime_clamped (MidiSynth_Construct 48000) (by decide)).2.2⟩

theorem div_mul_div_cancel_rat (x k p : ℚ) (hk : k ≠ 0) (hp : p ≠ 0) :
    x * k / p / k = x / p := by
  field_simp
  ring

/-- One `MidiSynth_setSampleRate` call with a positive rate preserves
the tick-domain ratios and `MidiSynth_getTime`, and keeps the new
`SamplesPerTick` positive. -/
theorem setSampleRate_invariants (s : MidiSynth) (r : ℚ)
    (hs : 0 < s.SamplesPerTick) (hr : 0 < r) :
    0 < (MidiSynth_setSampleRate s r).SamplesPerTick ∧
    (MidiSynth_setSampleRate s r).SamplesSinceLast /
      (MidiSynth_setSampleRate s r).SamplesPerTick =
      s.SamplesSinceLast / s.SamplesPerTick ∧
    (MidiSynth_setSampleRate s r).SamplesToNext /
      (MidiSynth_setSampleRate s r).SamplesPerTick =
      s.SamplesToNext / s.SamplesPerTick ∧
    MidiSynth_getTime (MidiSynth_setSampleRate s r) = MidiSynth_getTime s := by
  have ht : (0 : ℚ) < (TICKS_PER_SECOND : ℚ) := by norm_num [TICKS_PER_SECOND]
  have hk : r / (TICKS_PER_SECOND : ℚ) ≠ 0 := by positivity
  have hp : s.SamplesPerTick ≠ 0 := ne_of_gt hs
  have hpos : 0 < (MidiSynth_setSampleRate s r).SamplesPerTick := by
    unfold MidiSynth_setSampleRate
    positivity
  have h1 : (MidiSynth_setSampleRate s r).SamplesSinceLast /
      (MidiSynth_setSampleRate s r).SamplesPerTick =
      s.SamplesSinceLast / s.SamplesPerTick := by
    unfold MidiSynth_setSampleRate
    exact div_mul_div_cancel_rat _ _ _ hk hp
  have h2 : (MidiSynth_setSampleRate s r).SamplesToNext /
      (MidiSynth_setSampleRate s r).SamplesPerTick =
      s.SamplesToNext / s.SamplesPerTick := by
    unfold MidiSynth_setSampleRate
    exact div_mul_div_cancel_rat _ _ _ hk hp
  refine ⟨hpos, h1, h2, ?_⟩
  unfold MidiSynth_getTime
  rw [show (MidiSynth_setSampleRate s r).LastEvtTime = s.LastEvtTime from rfl,
      show (MidiSynth_setSampleRate s r).NextEvtTime = s.NextEvtTime from rfl, h1]

/-- C5: a sequence of `MidiSynth_setSampleRate` calls with positive
rates and no intervening advance or insertion leaves `MidiSynth_getTime`
unchanged: each call rescales `SamplesSinceLast` and `SamplesToNext` by
`newRate/oldRate`, so the tick-domain ratios
`SamplesSinceLast/SamplesPerTick` and `SamplesToNext/SamplesPerTick`
are invariant (exactly, over the rational model of the doubles). -/
theorem c5_rate_changes_preserve_time (s : MidiSynth) (rates : List ℚ)
    (hs : 0 < s.SamplesPerTick) (hall : ∀ r ∈ rates, 0 < r) :
    MidiSynth_getTime (rates.foldl MidiSynth_setSampleRate s) =
      MidiSynth_getTime s ∧
    (rates.foldl MidiSynth_setSampleRate s).SamplesSinceLast /
      (rates.foldl MidiSynth_setSampleRate s).SamplesPerTick =
      s.SamplesSinceLast / s.SamplesPerTick ∧
    (rates.foldl MidiSynth_setSampleRate s).SamplesToNext /
      (rates.foldl MidiSynth_setSampleRate s).SamplesPerTick =
      s.SamplesToNext / s.SamplesPerTick := by
  induction rates generalizing s with
  | nil => exact ⟨rfl, rfl, rfl⟩
  | cons r rs ih =>
    have hr : 0 < r := hall r (by simp)
    have hstep := setSampleRate_invariants s r hs hr
    have hrest := ih (MidiSynth_setSampleRate s r) hstep.1
      (fun x hx => hall x (by simp [hx]))
    simp only [List.foldl_cons]
    exact ⟨hrest.1.trans hstep.2.2.2,
      hrest.2.1.trans hstep.2.1,
      hrest.2.2.trans hstep.2.2.1⟩

/-- C5 witness: two rate changes (48000 → 44100 → 96000) on a fresh
synth leave `MidiSynth_getTime` unchanged. -/
theorem c5_witness :
    MidiSynth_getTime ([(44100 : ℚ), 96000].foldl MidiSynth_setSampleRate
      (MidiSynth_Construct 48000)) =
      MidiSynth_getTime (MidiSynth_Construct 48000) :=
  (c5_rate_changes_preserve_time (MidiSynth_Construct 48000) [44100, 96000]
    (by norm_num [MidiSynth_Construct, TICKS_PER_SECOND])
    (by intro r hr; simp at hr; rcases hr with rfl | rfl <;> norm_num)).1

/-- If any nonzero id fails the registry lookup, the whole resolution
fails. -/
theorem resolveAll_eq_none (lookup : Nat → Option Nat) (defSf : Nat)
    (ids : List Nat) (i : Nat) (hmem : i ∈ ids) (hi : i ≠ 0)
    (hl : lookup i = none) :
    resolveAll lookup defSf ids = none := by
  induction ids with
  | nil => simp at hmem
  | cons a rest ih =>
    rcases List.mem_cons.mp hmem with rfl | hmem'
    · unfold resolveAll
      rw [if_neg hi, hl]
    · unfold resolveAll
      cases h : (if a = 0 then some defSf else lookup a) with
      | none => rfl
      | some p => rw [ih hmem']; rfl

/-- C7: `MidiSynth_selectSoundfonts` fails with `AL_INVALID_OPERATION`
when the state is neither `AL_INITIAL` nor `AL_STOPPED`, with
`AL_OUT_OF_MEMORY` when the resolved-array allocation fails, and with
`AL_INVALID_VALUE` when any nonzero id is absent from the registry; in
all three cases the synth (including the active soundfont list) and the
whole refcount table are returned unchanged -- no reference is taken or
dropped before all ids resolve. -/
theorem c7_selectSoundfonts_failures :
    (∀ (s : MidiSynth) (refs : Nat → Nat) (lookup : Nat → Option Nat)
       (defSf : Nat) (ids : List Nat) (allocOk : Bool),
      s.State ≠ AL_INITIAL → s.State ≠ AL_STOPPED →
      MidiSynth_selectSoundfonts s refs lookup defSf ids allocOk =
        (AL_INVALID_OPERATION, s, refs)) ∧
    (∀ (s : MidiSynth) (refs : Nat → Nat) (lookup : Nat → Option Nat)
       (defSf : Nat) (ids : List Nat),
      (s.State = AL_INITIAL ∨ s.State = AL_STOPPED) →
      MidiSynth_selectSoundfonts s refs lookup defSf ids false =
        (AL_OUT_OF_MEMORY, s, refs)) ∧
    (∀ (s : MidiSynth) (refs : Nat → Nat) (lookup : Nat → Option Nat)
       (defSf : Nat) (ids : List Nat) (i : Nat),
      (s.State = AL_INITIAL ∨ s.State = AL_STOPPED) →
      i ∈ ids → i ≠ 0 → lookup i = none →
      MidiSynth_selectSoundfonts s refs lookup defSf ids true =
        (AL_INVALID_VALUE, s, refs)) := by
  refine ⟨?_, ?_, ?_⟩
  · intro s refs lookup defSf ids allocOk h1 h2
    unfold MidiSynth_selectSoundfonts
    rw [if_pos ⟨h1, h2⟩]
  · intro s refs lookup defSf ids hstate
    have hnot : ¬ (s.State ≠ AL_INITIAL ∧ s.State ≠ AL_STOPPED) := by
      rcases hstate with h | h <;> simp [h]
    unfold MidiSynth_selectSoundfonts
    rw [if_neg hnot, if_pos (by simp)]
  · intro s refs lookup defSf ids i hstate hmem hi hl
    have hnot : ¬ (s.State ≠ AL_INITIAL ∧ s.State ≠ AL_STOPPED) := by
      rcases hstate with h | h <;> simp [h]
    have hres := resolveAll_eq_none lookup defSf ids i hmem hi hl
    unfold MidiSynth_selectSoundfonts
    rw [if_neg hnot, if_neg (by simp), hres]

/-- A synth in the `AL_PLAYING` state, for the C7 witness. -/
def c7Splaying : MidiSynth :=
  { MidiSynth_Construct 48000 with State := AL_PLAYING }

/-- C7 witness: selection while `AL_PLAYING` fails with
`AL_INVALID_OPERATION`; allocation failure fails with
`AL_OUT_OF_MEMORY`; an unresolvable nonzero id (5, against an empty
registry) fails with `AL_INVALID_VALUE`; each time the synth and the
refcount table come back unchanged. -/
theorem c7_witness :
    MidiSynth_selectSoundfonts c7Splaying (fun _ => 0) (fun _ => none) 7 [5] true =
      (AL_INVALID_OPERATION, c7Splaying, fun _ => 0) ∧
    MidiSynth_selectSoundfonts (MidiSynth_Construct 48000) (fun _ => 0)
        (fun _ => none) 7 [5] false =
      (AL_OUT_OF_MEMORY, MidiSynth_Construct 48000, fun _ => 0) ∧
    MidiSynth_selectSoundfonts (MidiSynth_Construct 48000) (fun _ => 0)
        (fun _ => none) 7 [5] true =
      (AL_INVALID_VALUE, MidiSynth_Construct 48000, fun _ => 0) :=
  ⟨c7_selectSoundfonts_failures.1 c7Splaying (fun _ => 0) (fun _ => none) 7 [5] true
      (by decide) (by decide),
   c7_selectSoundfonts_failures.2.1 (MidiSynth_Construct 48000) (fun _ => 0)
      (fun _ => none) 7 [5] (Or.inl rfl),
   c7_selectSoundfonts_failures.2.2 (MidiSynth_Construct 48000) (fun _ => 0)
      (fun _ => none) 7 [5] 5 (Or.inl rfl) (by decide) (by decide) rfl⟩

/-- C8 (refuting the claim on the code): the commit of
`MidiSynth_selectSoundfonts` (lines 179-180) exchanges the soundfont
pointer and the count as two separate atomic operations, not as one
indivisible unit.  After the writer has executed only the first
exchange (swapping old set `(ptr 1, count 3)` for new set
`(ptr 2, count 5)`), a reader observes `(ptr 2, count 3)` -- the new
pointer with the stale count, matching neither the old nor the new
set. -/
theorem c8_two_step_swap_mismatch :
    runSteps ((selectCommitSteps 2 5).take 1) ⟨1, 3⟩ = ⟨2, 3⟩ ∧
    runSteps (selectCommitSteps 2 5) ⟨1, 3⟩ = ⟨2, 5⟩ ∧
    (⟨2, 3⟩ : SfView) ≠ ⟨1, 3⟩ ∧ (⟨2, 3⟩ : SfView) ≠ ⟨2, 5⟩ :=
  ⟨rfl, rfl, by decide, by decide⟩
